import Mathlib

/-!
Shallow embedding of the `rust-playing-cards` repository: the `Rank`, `Suit`
and `Card` value types and the staged `Deck` pipeline (build, shuffle, cut,
deal).  Decks are modelled as `List Card`; the ambient random generator used
by `shuffle` is modelled as an oracle `rng : Nat → List Card → List Card`
giving the permutation produced by each successive draw from the source.
-/

namespace PlayingCards

/-- `Rank` enum from `src/rank.rs`. -/
inductive Rank where
  | Ace | King | Queen | Jack | Ten | Nine | Eight | Seven
  | Six | Five | Four | Three | Two
  deriving DecidableEq, Repr, Fintype

/-- `Suit` enum from `src/suit.rs`. -/
inductive Suit where
  | Hearts | Spades | Diamonds | Clubs
  deriving DecidableEq, Repr, Fintype

/-- `Card` struct from `src/card.rs`: a rank paired with a suit. -/
structure Card where
  rank : Rank
  suit : Suit
  deriving DecidableEq, Repr, Fintype

/-- `Rank::VALUES` from `src/rank.rs`. -/
def Rank.VALUES : List Rank :=
  [.Ace, .King, .Queen, .Jack, .Ten, .Nine, .Eight, .Seven,
   .Six, .Five, .Four, .Three, .Two]

/-- `Suit::VALUES` from `src/suit.rs`. -/
def Suit.VALUES : List Suit := [.Hearts, .Clubs, .Diamonds, .Spades]

/-- `Rank::_aces_high_mapping` from `src/rank.rs`. -/
def Rank.aces_high_mapping : Rank → Int
  | .Ace => 14
  | .King => 13
  | .Queen => 12
  | .Jack => 11
  | .Ten => 10
  | .Nine => 9
  | .Eight => 8
  | .Seven => 7
  | .Six => 6
  | .Five => 5
  | .Four => 4
  | .Three => 3
  | .Two => 2

/-- `Rank::_aces_low_mapping` from `src/rank.rs`. -/
def Rank.aces_low_mapping : Rank → Int
  | .King => 13
  | .Queen => 12
  | .Jack => 11
  | .Ten => 10
  | .Nine => 9
  | .Eight => 8
  | .Seven => 7
  | .Six => 6
  | .Five => 5
  | .Four => 4
  | .Three => 3
  | .Two => 2
  | .Ace => 1

/-- `Rank::get_numerical_rank` from `src/rank.rs`. -/
def Rank.get_numerical_rank (r : Rank) (aces_high : Bool) : Int :=
  match aces_high with
  | true => r.aces_high_mapping
  | false => r.aces_low_mapping

/-- `impl fmt::Display for Rank` from `src/rank.rs`. -/
def Rank.display : Rank → String
  | .Ace => "Ace"
  | .King => "King"
  | .Queen => "Queen"
  | .Jack => "Jack"
  | .Ten => "10"
  | .Nine => "9"
  | .Eight => "8"
  | .Seven => "7"
  | .Six => "6"
  | .Five => "5"
  | .Four => "4"
  | .Three => "3"
  | .Two => "2"

/-- `impl fmt::Display for Suit` from `src/suit.rs`. -/
def Suit.display : Suit → String
  | .Hearts => "Hearts"
  | .Spades => "Spades"
  | .Diamonds => "Diamonds"
  | .Clubs => "Clubs"

/-- `impl fmt::Display for Card` from `src/card.rs`: `"{} of {}"`. -/
def Card.display (c : Card) : String :=
  c.rank.display ++ " of " ++ c.suit.display

/-- `Deck::<Building>::build_deck` from `src/deck.rs`: outer loop over the
suits, inner loop over the ranks, pushing `Card::new(rank, suit)` to the
back of the sequence. -/
def build_deck (ranks : List Rank) (suits : List Suit) : List Card :=
  suits.flatMap (fun s => ranks.map (fun r => Card.mk r s))

/-- `DeckType` enum from `src/deck.rs`. -/
inductive DeckType where
  | FullFrench
  deriving DecidableEq, Repr

/-- `Deck::<Building>::deck_type` from `src/deck.rs` (the resulting card
sequence; the `deck_size` capacity hint has no observable effect). -/
def deck_type : DeckType → List Card
  | .FullFrench => build_deck Rank.VALUES Suit.VALUES

/-- `Deck::<Building>::custom_deck_type` from `src/deck.rs`. -/
def custom_deck_type (ranks : List Rank) (suits : List Suit) : List Card :=
  build_deck ranks suits

/-- The randomness source: `rng i cs` is the sequence produced by the
`i`-th call of `cards.shuffle(&mut thread_rng())` on `cs`.  A behaviour of
the real generator always yields a permutation; that fact enters theorems as
an explicit hypothesis. -/
def RngOracle := Nat → List Card → List Card

/-- `n` successive in-place `shuffle` calls on `cs`, drawing the draws
numbered `0` to `n-1` from the source. -/
def iterApply (rng : RngOracle) : Nat → List Card → List Card
  | 0, cs => cs
  | n + 1, cs => rng n (iterApply rng n cs)

/-- The `match shuffles` of `Deck::<Shuffling>::shuffle` from `src/deck.rs`:
the arm `1..=10` runs `for _ in 0..=shuffles` (hence `shuffles + 1` draws)
and the wildcard arm draws once. -/
def permutePhase (rng : RngOracle) (shuffles : Nat) (cards : List Card) : List Card :=
  if 1 ≤ shuffles ∧ shuffles ≤ 10 then iterApply rng (shuffles + 1) cards
  else iterApply rng 1 cards

/-- `Deck::<Shuffling>::shuffle` from `src/deck.rs`: the `match shuffles`
(see `permutePhase`), followed by the split at `len / 2` and the
`[last, first].concat()` cut. -/
def shuffle (rng : RngOracle) (shuffles : Nat) (cards : List Card) : List Card :=
  let permuted := permutePhase rng shuffles cards
  let halfway := permuted.length / 2
  let first := permuted.take halfway
  let last := permuted.drop halfway
  last ++ first

/-- `Deck::<Shuffling>::no_shuffle` from `src/deck.rs`. -/
def no_shuffle (cards : List Card) : List Card := cards

/-- `Deck::<Start>::default_new` from `src/deck.rs`:
`Deck::new().deck_type(DeckType::FullFrench).shuffle(7)`. -/
def default_new (rng : RngOracle) : List Card :=
  shuffle rng 7 (deck_type .FullFrench)

/-- `Deck::<Finished>::deal_top_card` from `src/deck.rs`: `pop_front`,
returned together with the remaining deck. -/
def deal_top_card : List Card → Option Card × List Card
  | [] => (none, [])
  | c :: rest => (some c, rest)

/-- `Deck::<Finished>::deal_bottom_card` from `src/deck.rs`: `pop_back`,
returned together with the remaining deck. -/
def deal_bottom_card (cards : List Card) : Option Card × List Card :=
  (cards.getLast?, cards.dropLast)

/-- `Deck::<Finished>::total_cards` from `src/deck.rs`. -/
def total_cards (cards : List Card) : Nat := cards.length

/-! Spec-side definitions, stated from the specification's words, to be
compared with the source embedding above. -/

/-- The spec's cut: split at the midpoint (`len / 2`, integer floor) and
concatenate the second half followed by the first half. -/
def cutDeck (l : List Card) : List Card :=
  l.drop (l.length / 2) ++ l.take (l.length / 2)

/-- The spec's draw count: `count + 1` randomized permutations when
`1 <= count <= 10`, exactly one otherwise. -/
def permutationDraws (shuffles : Nat) : Nat :=
  if 1 ≤ shuffles ∧ shuffles ≤ 10 then shuffles + 1 else 1

/-- A marker card used by the counting oracle. -/
def markCard : Card := Card.mk .Ace .Hearts

/-- An instrumented randomness source: each draw prepends a marker, so the
length of the output counts the number of draws taken from the source. -/
def countingOracle : RngOracle := fun _ l => markCard :: l

/-- Repeated dealing from the top: `dealTopN n cs` deals `n` times and
returns the dealt cards in order together with the remaining deck. -/
def dealTopN : Nat → List Card → List Card × List Card
  | 0, cs => ([], cs)
  | _ + 1, [] => ([], [])
  | n + 1, c :: rest =>
    let p := dealTopN n rest
    (c :: p.1, p.2)

/-- A small concrete deck used by witnesses. -/
def sampleCards : List Card :=
  [Card.mk .Ace .Hearts, Card.mk .King .Spades, Card.mk .Two .Clubs]

/-! Helper lemmas shared between the claim theorems. -/

theorem iterApply_perm (rng : RngOracle) (hrng : ∀ i l, (rng i l).Perm l) :
    ∀ (n : Nat) (cs : List Card), (iterApply rng n cs).Perm cs
  | 0, _ => List.Perm.refl _
  | n + 1, cs => (hrng n _).trans (iterApply_perm rng hrng n cs)

theorem permutePhase_perm (rng : RngOracle) (hrng : ∀ i l, (rng i l).Perm l)
    (shuffles : Nat) (cards : List Card) :
    (permutePhase rng shuffles cards).Perm cards := by
  unfold permutePhase
  split
  · exact iterApply_perm rng hrng _ cards
  · exact iterApply_perm rng hrng 1 cards

theorem drop_append_take_perm (l : List Card) (k : Nat) :
    (l.drop k ++ l.take k).Perm l :=
  List.perm_append_comm.trans (by rw [List.take_append_drop])

theorem shuffle_perm_core (rng : RngOracle) (hrng : ∀ i l, (rng i l).Perm l)
    (shuffles : Nat) (cards : List Card) :
    (shuffle rng shuffles cards).Perm cards :=
  (drop_append_take_perm (permutePhase rng shuffles cards) _).trans
    (permutePhase_perm rng hrng shuffles cards)

theorem iterApply_counting (cs : List Card) :
    ∀ n : Nat, (iterApply countingOracle n cs).length = cs.length + n
  | 0 => rfl
  | n + 1 => by
    have ih := iterApply_counting cs n
    simp [iterApply, countingOracle, ih]
    omega

theorem build_deck_length (R : List Rank) :
    ∀ S : List Suit, (build_deck R S).length = S.length * R.length
  | [] => by simp [build_deck]
  | s :: S => by
    have ih := build_deck_length R S
    simp [build_deck, List.flatMap_cons] at ih ⊢
    simp [ih]
    ring

theorem build_deck_getElem (R : List Rank) :
    ∀ (S : List Suit) (i j : Nat) (r : Rank) (s : Suit),
      S[i]? = some s → R[j]? = some r →
      (build_deck R S)[i * R.length + j]? = some (Card.mk r s) := by
  intro S
  induction S with
  | nil =>
    intro i j r s hs _
    simp at hs
  | cons s0 S ih =>
    intro i j r s hs hr
    match i with
    | 0 =>
      have hs0 : s0 = s := by simpa using hs
      subst hs0
      have hj : j < R.length := (List.getElem?_eq_some.mp hr).1
      have hmap : j < (R.map fun x => Card.mk x s0).length := by simpa using hj
      rw [show (0 : Nat) * R.length + j = j by ring]
      rw [show build_deck R (s0 :: S)
            = (R.map fun x => Card.mk x s0) ++ build_deck R S by
          simp [build_deck, List.flatMap_cons]]
      rw [List.getElem?_append_left hmap, List.getElem?_map, hr]
      rfl
    | Nat.succ i =>
      have hsi : S[i]? = some s := by simpa using hs
      rw [show build_deck R (s0 :: S)
            = (R.map fun x => Card.mk x s0) ++ build_deck R S by
          simp [build_deck, List.flatMap_cons]]
      have hlen : (R.map fun x => Card.mk x s0).length ≤ (i + 1) * R.length + j := by
        simp
        calc R.length ≤ (i + 1) * R.length := Nat.le_mul_of_pos_left _ (Nat.succ_pos i)
          _ ≤ (i + 1) * R.length + j := Nat.le_add_right _ _
      rw [List.getElem?_append_right hlen]
      have hidx : (i + 1) * R.length + j - (R.map fun x => Card.mk x s0).length
          = i * R.length + j := by
        simp
        ring_nf
        omega
      rw [hidx]
      exact ih i j r s hsi hr

theorem dealTopN_all : ∀ cs : List Card, dealTopN cs.length cs = (cs, [])
  | [] => rfl
  | c :: rest => by
    have ih := dealTopN_all rest
    simp [dealTopN, ih]

set_option maxRecDepth 8000

theorem full_french_length : (deck_type .FullFrench).length = 52 := by decide

theorem full_french_count :
    ∀ (r : Rank) (s : Suit), (deck_type .FullFrench).count (Card.mk r s) = 1 := by
  decide

/-- A no-op randomness behaviour, used by witnesses. -/
def trivialOracle : RngOracle := fun _ l => l

/-! Claim theorems. -/

/-- C1: `shuffle` returns a permutation of its input for every shuffle count
and every behaviour of the randomness source: the multiset of cards, and
hence the count of every (Rank, Suit) pair, is exactly preserved. -/
theorem shuffle_preserves_cards (rng : RngOracle)
    (hrng : ∀ i l, (rng i l).Perm l) (shuffles : Nat) (cards : List Card) :
    (shuffle rng shuffles cards).Perm cards ∧
    ∀ c : Card, (shuffle rng shuffles cards).count c = cards.count c :=
  ⟨shuffle_perm_core rng hrng shuffles cards,
   fun c => (shuffle_perm_core rng hrng shuffles cards).count_eq c⟩

/-- Witness for C1 at shuffle count 1000 on a concrete three-card deck. -/
theorem shuffle_preserves_cards_witness :
    (shuffle trivialOracle 1000 sampleCards).Perm sampleCards ∧
    ∀ c : Card, (shuffle trivialOracle 1000 sampleCards).count c = sampleCards.count c :=
  shuffle_preserves_cards trivialOracle (fun _ _ => List.Perm.refl _) 1000 sampleCards

/-- C2: `shuffle` applies exactly one cut after the permutation phase: the
result is the post-permutation sequence rotated at its midpoint (second half
followed by first half, the first half one element shorter for odd lengths),
independently of which shuffle-count branch was taken. -/
theorem shuffle_single_cut (rng : RngOracle) (shuffles : Nat) (cards : List Card) :
    shuffle rng shuffles cards = cutDeck (permutePhase rng shuffles cards) ∧
    (∀ pre : List Card,
      cutDeck pre = pre.drop (pre.length / 2) ++ pre.take (pre.length / 2)) ∧
    (∀ pre : List Card, (pre.take (pre.length / 2)).length = pre.length / 2 ∧
      (pre.drop (pre.length / 2)).length = pre.length - pre.length / 2) := by
  refine ⟨rfl, fun _ => rfl, fun pre => ⟨?_, ?_⟩⟩
  · rw [List.length_take]
    exact Nat.min_eq_left (Nat.div_le_self _ _)
  · rw [List.length_drop]

/-- C3: the permutation phase of `shuffle` draws from the randomness source
exactly `shuffles + 1` times when `1 <= shuffles <= 10` and exactly once
otherwise, observed both by unfolding to `iterApply` and by an instrumented
oracle whose output length counts its invocations. -/
theorem shuffle_permutation_count (rng : RngOracle) (shuffles : Nat) (cards : List Card) :
    permutePhase rng shuffles cards = iterApply rng (permutationDraws shuffles) cards ∧
    (permutePhase countingOracle shuffles cards).length
      = cards.length + permutationDraws shuffles ∧
    (1 ≤ shuffles ∧ shuffles ≤ 10 → permutationDraws shuffles = shuffles + 1) ∧
    (shuffles = 0 ∨ 10 < shuffles → permutationDraws shuffles = 1) := by
  refine ⟨?_, ?_, ?_, ?_⟩
  · by_cases h : 1 ≤ shuffles ∧ shuffles ≤ 10 <;>
      simp [permutePhase, permutationDraws, h]
  · by_cases h : 1 ≤ shuffles ∧ shuffles ≤ 10 <;>
      simp [permutePhase, permutationDraws, h, iterApply_counting]
  · intro h
    simp [permutationDraws, h]
  · intro h
    have hn : ¬ (1 ≤ shuffles ∧ shuffles ≤ 10) := by omega
    simp [permutationDraws, hn]

/-- Witness for C3 at counts 5, 0, 11 and 1000 on a concrete deck. -/
theorem shuffle_permutation_count_witness :
    permutationDraws 5 = 5 + 1 ∧ permutationDraws 0 = 1 ∧
    permutationDraws 11 = 1 ∧ permutationDraws 1000 = 1 ∧
    (permutePhase countingOracle 5 sampleCards).length
      = sampleCards.length + permutationDraws 5 :=
  ⟨(shuffle_permutation_count countingOracle 5 sampleCards).2.2.1 (by decide),
   (shuffle_permutation_count countingOracle 0 sampleCards).2.2.2 (by decide),
   (shuffle_permutation_count countingOracle 11 sampleCards).2.2.2 (by decide),
   (shuffle_permutation_count countingOracle 1000 sampleCards).2.2.2 (by decide),
   (shuffle_permutation_count countingOracle 5 sampleCards).2.1⟩

/-- C4: a custom build has length |R| * |S| and is the suit-major,
rank-minor Cartesian product: the card at position i * |R| + j is the card
with rank R[j] and suit S[i], for the caller's lists as given, duplicates
included. -/
theorem custom_build_product (R : List Rank) (S : List Suit) :
    (custom_deck_type R S).length = R.length * S.length ∧
    ∀ (i j : Nat) (r : Rank) (s : Suit), S[i]? = some s → R[j]? = some r →
      (custom_deck_type R S)[i * R.length + j]? = some (Card.mk r s) := by
  constructor
  · rw [show custom_deck_type R S = build_deck R S from rfl, build_deck_length]
    ring
  · intro i j r s hs hr
    exact build_deck_getElem R S i j r s hs hr

/-- Witness for C4 on a two-rank, two-suit custom build at position
1 * 2 + 0. -/
theorem custom_build_product_witness :
    (custom_deck_type [Rank.Ace, Rank.King] [Suit.Hearts, Suit.Spades]).length
      = [Rank.Ace, Rank.King].length * [Suit.Hearts, Suit.Spades].length ∧
    (custom_deck_type [Rank.Ace, Rank.King]
        [Suit.Hearts, Suit.Spades])[1 * [Rank.Ace, Rank.King].length + 0]?
      = some (Card.mk .Ace .Spades) :=
  ⟨(custom_build_product [Rank.Ace, Rank.King] [Suit.Hearts, Suit.Spades]).1,
   (custom_build_product [Rank.Ace, Rank.King] [Suit.Hearts, Suit.Spades]).2
     1 0 .Ace .Spades rfl rfl⟩

/-- C5: the standard FullFrench build has exactly 52 cards and contains
each of the 13 * 4 (Rank, Suit) pairs exactly once. -/
theorem standard_build_full :
    (deck_type .FullFrench).length = 52 ∧
    ∀ (r : Rank) (s : Suit), (deck_type .FullFrench).count (Card.mk r s) = 1 :=
  ⟨full_french_length, full_french_count⟩

/-- C6: dealing never errors: on the empty deck both deals return `none`,
on a non-empty deck `deal_top_card` removes and returns the front card and
`deal_bottom_card` the back card; dealing the full sequence from the top
yields every card in order (so 52 deals on a 52-card deck yield 52 cards)
and the next deal returns `none`. -/
theorem deal_spec :
    deal_top_card [] = (none, []) ∧
    (∀ (c : Card) (rest : List Card), deal_top_card (c :: rest) = (some c, rest)) ∧
    deal_bottom_card [] = (none, []) ∧
    (∀ (cs : List Card) (c : Card), deal_bottom_card (cs ++ [c]) = (some c, cs)) ∧
    (∀ cs : List Card, dealTopN cs.length cs = (cs, []) ∧
      (deal_top_card (dealTopN cs.length cs).2).1 = none) ∧
    (dealTopN 52 (deck_type .FullFrench)).1 = deck_type .FullFrench ∧
    (deal_top_card (dealTopN 52 (deck_type .FullFrench)).2).1 = none := by
  have h52 := dealTopN_all (deck_type .FullFrench)
  rw [full_french_length] at h52
  refine ⟨rfl, fun c rest => rfl, rfl, ?_, ?_, ?_, ?_⟩
  · intro cs c
    simp [deal_bottom_card, List.getLast?_concat, List.dropLast_concat]
  · intro cs
    refine ⟨dealTopN_all cs, ?_⟩
    rw [dealTopN_all cs]
    rfl
  · rw [h52]
  · rw [h52]
    rfl

/-- C7: the numeric rank mapping is total in both modes: aces-high maps
VALUES to 14 down to 2, aces-low maps Ace to 1 (the unique minimum) and
King down to Two to 13 down to 2; King is 13 in both modes. -/
theorem numeric_rank_mapping :
    Rank.VALUES.map (Rank.get_numerical_rank · true)
      = [14, 13, 12, 11, 10, 9, 8, 7, 6, 5, 4, 3, 2] ∧
    Rank.VALUES.map (Rank.get_numerical_rank · false)
      = [1, 13, 12, 11, 10, 9, 8, 7, 6, 5, 4, 3, 2] ∧
    (∀ r : Rank, Rank.get_numerical_rank r false = 1 ↔ r = .Ace) ∧
    (∀ r : Rank, r ≠ .Ace → 2 ≤ Rank.get_numerical_rank r false) ∧
    Rank.get_numerical_rank .Ace true = 14 ∧
    Rank.get_numerical_rank .Ace false = 1 ∧
    Rank.get_numerical_rank .King true = 13 ∧
    Rank.get_numerical_rank .King false = 13 := by
  decide

/-- Witness for C7: Two is not Ace, so its aces-low value is at least 2. -/
theorem numeric_rank_mapping_witness :
    2 ≤ Rank.get_numerical_rank .Two false :=
  numeric_rank_mapping.2.2.2.1 .Two (by decide)

/-- C8: rendering a card gives "<Rank> of <Suit>", the FullFrench deck
enumerates every card, its rendered strings are pairwise distinct, and no
two distinct (Rank, Suit) pairs render to the same string. -/
theorem render_injective :
    (∀ c : Card, c.display = c.rank.display ++ " of " ++ c.suit.display) ∧
    (∀ c : Card, c ∈ deck_type .FullFrench) ∧
    ((deck_type .FullFrench).map Card.display).Nodup ∧
    (∀ a b : Card, a.display = b.display → a = b) := by
  refine ⟨fun c => rfl, by decide, by decide, by decide⟩

/-- Witness for C8 at two equal cards with equal renderings. -/
theorem render_injective_witness :
    Card.mk Rank.Ace Suit.Hearts = Card.mk Rank.Ace Suit.Hearts :=
  render_injective.2.2.2 (Card.mk .Ace .Hearts) (Card.mk .Ace .Hearts) rfl

/-- C9: `Rank.VALUES` and `Suit.VALUES` are exactly their fixed literal
orders, each value occurring exactly once. -/
theorem values_literal_order :
    Rank.VALUES = [.Ace, .King, .Queen, .Jack, .Ten, .Nine, .Eight, .Seven,
      .Six, .Five, .Four, .Three, .Two] ∧
    Suit.VALUES = [.Hearts, .Clubs, .Diamonds, .Spades] ∧
    Rank.VALUES.length = 13 ∧ Rank.VALUES.Nodup ∧
    Suit.VALUES.length = 4 ∧ Suit.VALUES.Nodup := by
  decide

/-- C10: `default_new` is exactly `deck_type(FullFrench)` followed by
`shuffle(7)`, and for every permutation-producing behaviour of the
randomness source it yields 52 cards containing each (Rank, Suit) pair
exactly once. -/
theorem default_new_refines (rng : RngOracle) (hrng : ∀ i l, (rng i l).Perm l) :
    default_new rng = shuffle rng 7 (deck_type .FullFrench) ∧
    (default_new rng).length = 52 ∧
    ∀ (r : Rank) (s : Suit), (default_new rng).count (Card.mk r s) = 1 := by
  have h := shuffle_perm_core rng hrng 7 (deck_type .FullFrench)
  refine ⟨rfl, ?_, ?_⟩
  · exact h.length_eq.trans full_french_length
  · intro r s
    exact (h.count_eq (Card.mk r s)).trans (full_french_count r s)

/-- Witness for C10 with the no-op randomness behaviour. -/
theorem default_new_refines_witness :
    default_new trivialOracle = shuffle trivialOracle 7 (deck_type .FullFrench) ∧
    (default_new trivialOracle).length = 52 ∧
    ∀ (r : Rank) (s : Suit), (default_new trivialOracle).count (Card.mk r s) = 1 :=
  default_new_refines trivialOracle (fun _ _ => List.Perm.refl _)

end PlayingCards
